import Mathlib

/-!
Verification of the `ette` editor's container codec and row-store layer.

Byte strings from the C++ sources (`std::string`, `std::vector<unsigned char>`)
are embedded as `List Nat`, each entry a byte value.  Machine integers
(`uint64_t`) are embedded as `Nat`; the places where the 64-bit width matters
carry an explicit `< 2 ^ 64` hypothesis.  The host-endianness probe
`IsSystemLittleEndian` is embedded as an explicit `Bool` parameter `le`,
because the source branches on it.
-/

namespace Ette

/-- `CryptoAlgorithm` from `crypto.h`. -/
inductive CryptoAlgorithm
  | kDefaultNone
  | kAES256CBC
deriving DecidableEq, Repr

/-- `StatusCode` from `status.h`. -/
inductive StatusCode
  | kOk
  | kHeaderNoMagicNumber
  | kHeaderInvalidAlgorithm
  | kHeaderInvalidPlaintextSize
  | kHeaderInvalidIvSize
  | kInvalidKeySize
  | kInvalidKey
  | kInvalidDataSize
  | kInvalidIvSize
  | kUnknownError
deriving DecidableEq, Repr

/-- `Status<void>` from `status.h`: an optional `(code, message)` pair.
The default constructor leaves it empty (`none`); the `(code, message)`
constructor stores the pair, and `ok()` holds iff a pair is stored whose code
is `kOk`. -/
structure StatusV where
  err : Option (StatusCode × String)
deriving DecidableEq, Repr

/-- `Status<void>::ok()`. -/
def StatusV.ok (s : StatusV) : Bool :=
  match s.err with
  | some (c, _) => c = StatusCode.kOk
  | none => false

/-- The code stored in a `Status<void>`, if any (used to embed
`status.error().code() == ...` comparisons). -/
def StatusV.code? (s : StatusV) : Option StatusCode :=
  s.err.map Prod.fst

/-- `CryptoState` from `crypto.h`. -/
structure CryptoState where
  raw_key : List Nat
  hashed_key : List Nat
  plaintext : List Nat
  ciphertext : List Nat
  iv : List Nat
  ciphertext_size : Nat
  plaintext_size : Nat
  algorithm : CryptoAlgorithm
  status : StatusV
deriving DecidableEq, Repr

/-- `CreateEmptyCryptoState` from `crypto.cc`: every buffer empty, sizes zero,
no algorithm, and an explicit `kOk` status. -/
def CreateEmptyCryptoState : CryptoState :=
  { raw_key := [], hashed_key := [], plaintext := [], ciphertext := [], iv := []
    ciphertext_size := 0, plaintext_size := 0
    algorithm := CryptoAlgorithm.kDefaultNone
    status := { err := some (StatusCode.kOk, "") } }

/-- `CreateCryptoStateWithStatus` from `crypto.cc`. -/
def CreateCryptoStateWithStatus (code : StatusCode) (message : String) :
    CryptoState :=
  { CreateEmptyCryptoState with status := { err := some (code, message) } }

/-- `CryptoState()` value-initialisation as returned by the `default` arms of
`Encrypt` / `Decrypt` in `crypto.cc`: zero-filled fields and a
default-constructed (empty, hence not-ok) status. -/
def ValueInitCryptoState : CryptoState :=
  { raw_key := [], hashed_key := [], plaintext := [], ciphertext := [], iv := []
    ciphertext_size := 0, plaintext_size := 0
    algorithm := CryptoAlgorithm.kDefaultNone
    status := { err := none } }

/-- The four magic bytes `E T T E` (`kHeaderMagicNumber` in `constants.h`). -/
def kHeaderMagicNumber : List Nat := [69, 84, 84, 69]

/-- `kHeaderIvSize` from `constants.h`. -/
def kHeaderIvSize : Nat := 16

/-- `kHeaderSize` from `constants.h`: 4 magic + 1 algorithm + 3 version +
8 plaintext size + 16 iv = 32 bytes. -/
def kHeaderSize : Nat := 32

/-- `GetPlaintextSizeFromCiphertext` from `crypto.cc`: read the first 8 bytes
and recombine them, most-significant first on a little-endian host and
least-significant first on a big-endian host.  `le` is the result of the
`IsSystemLittleEndian()` probe. -/
def GetPlaintextSizeFromCiphertext (le : Bool) (ciphertext : List Nat) : Nat :=
  if ciphertext.length < 8 then 0
  else
    let b : Nat → Nat := fun i => ciphertext.getD i 0
    if le then
      b 0 <<< 56 ||| b 1 <<< 48 ||| b 2 <<< 40 ||| b 3 <<< 32 |||
      b 4 <<< 24 ||| b 5 <<< 16 ||| b 6 <<< 8 ||| b 7
    else
      b 7 <<< 56 ||| b 6 <<< 48 ||| b 5 <<< 40 ||| b 4 <<< 32 |||
      b 3 <<< 24 ||| b 2 <<< 16 ||| b 1 <<< 8 ||| b 0

/-- `ConstructPlaintextSizeHeaderForCiphertext` from `crypto.cc`: emit the
8 size bytes, most-significant first on a little-endian host and
least-significant first on a big-endian host. -/
def ConstructPlaintextSizeHeaderForCiphertext (le : Bool)
    (plaintext_size : Nat) : List Nat :=
  if le then
    [plaintext_size >>> 56 &&& 255, plaintext_size >>> 48 &&& 255,
     plaintext_size >>> 40 &&& 255, plaintext_size >>> 32 &&& 255,
     plaintext_size >>> 24 &&& 255, plaintext_size >>> 16 &&& 255,
     plaintext_size >>> 8 &&& 255, plaintext_size &&& 255]
  else
    [plaintext_size &&& 255, plaintext_size >>> 8 &&& 255,
     plaintext_size >>> 16 &&& 255, plaintext_size >>> 24 &&& 255,
     plaintext_size >>> 32 &&& 255, plaintext_size >>> 40 &&& 255,
     plaintext_size >>> 48 &&& 255, plaintext_size >>> 56 &&& 255]

/-- Shifted-or of disjoint fields is addition: helper for decoding the
size header. -/
theorem shl_or_eq_add {x y k : Nat} (h : y < 2 ^ k) :
    x <<< k ||| y = x * 2 ^ k + y := by
  rw [Nat.shiftLeft_eq, Nat.mul_comm x (2 ^ k), ← Nat.mul_add_lt_is_or h x]

/-- Masking with `0xFF` is reduction mod 256. -/
theorem and_255_eq_mod (x : Nat) : x &&& 255 = x % 256 := by
  have h : (255 : Nat) = 2 ^ 8 - 1 := by norm_num
  rw [h, Nat.and_pow_two_sub_one_eq_mod]

/-- Recombining eight bytes by shift-and-or equals the base-256 sum. -/
theorem eight_byte_or_eq_sum (c0 c1 c2 c3 c4 c5 c6 c7 : Nat)
    (h0 : c0 < 256) (h1 : c1 < 256) (h2 : c2 < 256) (h3 : c3 < 256)
    (h4 : c4 < 256) (h5 : c5 < 256) (h6 : c6 < 256) (h7 : c7 < 256) :
    c0 <<< 56 ||| c1 <<< 48 ||| c2 <<< 40 ||| c3 <<< 32 |||
    c4 <<< 24 ||| c5 <<< 16 ||| c6 <<< 8 ||| c7 =
    c0 * 2 ^ 56 + c1 * 2 ^ 48 + c2 * 2 ^ 40 + c3 * 2 ^ 32 +
    c4 * 2 ^ 24 + c5 * 2 ^ 16 + c6 * 2 ^ 8 + c7 := by
  rw [Nat.or_assoc, Nat.or_assoc, Nat.or_assoc, Nat.or_assoc, Nat.or_assoc,
    Nat.or_assoc]
  rw [shl_or_eq_add (x := c6) (k := 8) (by omega)]
  rw [shl_or_eq_add (x := c5) (k := 16) (by omega)]
  rw [shl_or_eq_add (x := c4) (k := 24) (by omega)]
  rw [shl_or_eq_add (x := c3) (k := 32) (by omega)]
  rw [shl_or_eq_add (x := c2) (k := 40) (by omega)]
  rw [shl_or_eq_add (x := c1) (k := 48) (by omega)]
  rw [shl_or_eq_add (x := c0) (k := 56) (by omega)]
  ring

/-- Decoding the size header written for `n < 2 ^ 64` recovers `n`, on either
endianness, with arbitrary trailing bytes. -/
theorem getSize_construct (le : Bool) (n : Nat) (hn : n < 2 ^ 64)
    (rest : List Nat) :
    GetPlaintextSizeFromCiphertext le
      (ConstructPlaintextSizeHeaderForCiphertext le n ++ rest) = n := by
  have hb : ∀ x : Nat, x &&& 255 < 256 := by
    intro x
    have := Nat.and_le_right (n := x) (m := 255)
    omega
  cases le with
  | true =>
    simp only [ConstructPlaintextSizeHeaderForCiphertext, if_pos,
      List.cons_append, List.nil_append]
    rw [GetPlaintextSizeFromCiphertext]
    simp only [List.length_cons, if_true]
    rw [if_neg (by omega)]
    simp only [List.getD_cons_zero, List.getD_cons_succ, if_true]
    rw [eight_byte_or_eq_sum _ _ _ _ _ _ _ _ (hb _) (hb _) (hb _) (hb _)
      (hb _) (hb _) (hb _) (hb _)]
    simp only [and_255_eq_mod, Nat.shiftRight_eq_div_pow]
    omega
  | false =>
    simp only [ConstructPlaintextSizeHeaderForCiphertext, if_neg,
      Bool.false_eq_true, not_false_iff, List.cons_append, List.nil_append]
    rw [GetPlaintextSizeFromCiphertext]
    simp only [List.length_cons]
    rw [if_neg (by omega)]
    rw [if_neg (by simp)]
    simp only [List.getD_cons_zero, List.getD_cons_succ]
    rw [eight_byte_or_eq_sum _ _ _ _ _ _ _ _ (hb _) (hb _) (hb _) (hb _)
      (hb _) (hb _) (hb _) (hb _)]
    simp only [and_255_eq_mod, Nat.shiftRight_eq_div_pow]
    omega

/-- Modelled from the spec: the AES-256-CBC block cipher and the SHA-256
primitive are vendored third-party code (`third_party/plusaes`,
`third_party/picosha2`) that is not present under `src/`; spec section 6.1
states their contract, which this structure captures.  `encCbc key iv p` is
`aes256_cbc_encrypt` with PKCS#7 padding, producing `((n / 16) + 1) * 16`
bytes; `decCbc key iv c` is `aes256_cbc_decrypt` with PKCS#7 validation,
returning `none` exactly on the padding error that signals a wrong key (with
the 32-byte key and 16-byte IV the source always supplies, the other plusaes
error codes cannot arise); `sha256hex` is the 64-character lowercase hex
digest.  The codec theorems are proved for every instance of this contract. -/
structure CryptoPrims where
  sha256hex : List Nat → List Nat
  encCbc : List Nat → List Nat → List Nat → List Nat
  decCbc : List Nat → List Nat → List Nat → Option (List Nat)
  encCbc_length : ∀ key iv p, (encCbc key iv p).length = (p.length / 16 + 1) * 16
  decCbc_encCbc : ∀ key iv p, decCbc key iv (encCbc key iv p) = some p

/-- `HashRawKey` from `crypto.cc`: the first 32 characters of the lowercase
hex SHA-256 digest of the raw key. -/
def HashRawKey (P : CryptoPrims) (raw_key : List Nat) : List Nat :=
  (P.sha256hex raw_key).take 32

/-- The 16-byte IV buffer actually used for the cipher: `crypto.cc` copies
16 bytes of the source vector into a local array and overwrites the last
byte with `'\0'` (`iv[kHeaderIvSize - 1] = 0`). -/
def ZeroLastIvByte (src : List Nat) : List Nat :=
  (src.take 16).set 15 0

/-- `EncryptAES256CBC` from `crypto.cc`.  The plusaes error switch after
`encrypt_cbc` is unreachable under the section-6.1 contract (the derived key
is always 32 bytes and the IV buffer 16 bytes), so the embedding keeps only
the success path after the empty-key check. -/
def EncryptAES256CBC (P : CryptoPrims) (le : Bool)
    (plaintext raw_key raw_iv : List Nat) : CryptoState :=
  if raw_key = [] then
    CreateCryptoStateWithStatus StatusCode.kInvalidKeySize "Key is empty"
  else
    let plaintext_size := plaintext.length
    let key := HashRawKey P raw_key
    let iv := ZeroLastIvByte raw_iv
    let cipher := P.encCbc key iv plaintext
    let ciphertext_str :=
      kHeaderMagicNumber ++ [49] ++ [48, 48, 49] ++
      ConstructPlaintextSizeHeaderForCiphertext le plaintext_size ++
      iv ++ cipher
    { raw_key := raw_key, hashed_key := key, plaintext := plaintext
      ciphertext := ciphertext_str, iv := raw_iv
      ciphertext_size := cipher.length, plaintext_size := plaintext_size
      algorithm := CryptoAlgorithm.kAES256CBC
      status := { err := some (StatusCode.kOk, "") } }

/-- `Encrypt` from `crypto.cc`. -/
def Encrypt (P : CryptoPrims) (le : Bool) (plaintext key iv : List Nat)
    (algorithm : CryptoAlgorithm) : CryptoState :=
  match algorithm with
  | CryptoAlgorithm.kAES256CBC => EncryptAES256CBC P le plaintext key iv
  | CryptoAlgorithm.kDefaultNone => ValueInitCryptoState

/-- `SetupCryptoStateFromCiphertextAES256CBC` from `crypto.cc`: check the
32-byte minimum and the non-empty key, then strip the 8 fixed header bytes,
the 8 size bytes and the 16 IV bytes. -/
def SetupCryptoStateFromCiphertextAES256CBC (P : CryptoPrims) (le : Bool)
    (ciphertext raw_key : List Nat) (algorithm : CryptoAlgorithm) :
    CryptoState :=
  if ciphertext.length < kHeaderSize then
    CreateCryptoStateWithStatus StatusCode.kInvalidDataSize
      "Ciphertext is too small to contain header"
  else if raw_key = [] then
    CreateCryptoStateWithStatus StatusCode.kInvalidKeySize "Key is empty"
  else
    let c1 := ciphertext.drop 8
    let plaintext_size := GetPlaintextSizeFromCiphertext le c1
    let c2 := c1.drop 8
    let iv := c2.take kHeaderIvSize
    let c3 := c2.drop kHeaderIvSize
    { raw_key := raw_key, hashed_key := HashRawKey P raw_key, plaintext := []
      ciphertext := c3, iv := iv
      ciphertext_size := c3.length, plaintext_size := plaintext_size
      algorithm := algorithm
      status := { err := some (StatusCode.kOk, "") } }

/-- `DecryptAES256CBC` from `crypto.cc`.  The decrypted buffer is allocated
with `plaintext_size` zero bytes and the cipher output written into it, which
`bufWrite` reproduces. -/
def DecryptAES256CBC (P : CryptoPrims) (le : Bool)
    (ciphertext raw_key : List Nat) (algorithm : CryptoAlgorithm) :
    CryptoState :=
  let state := SetupCryptoStateFromCiphertextAES256CBC P le ciphertext raw_key
    algorithm
  if !state.status.ok &&
      (state.status.code? = some StatusCode.kInvalidDataSize ||
       state.status.code? = some StatusCode.kInvalidKeySize) then
    state
  else
    let iv := ZeroLastIvByte state.iv
    if state.plaintext_size = 0 then
      { raw_key := state.raw_key, hashed_key := state.hashed_key
        plaintext := [], ciphertext := state.ciphertext, iv := state.iv
        ciphertext_size := state.ciphertext_size
        plaintext_size := state.plaintext_size
        algorithm := CryptoAlgorithm.kAES256CBC
        status := { err := some (StatusCode.kOk, "") } }
    else
      match P.decCbc state.hashed_key iv state.ciphertext with
      | none =>
        CreateCryptoStateWithStatus StatusCode.kInvalidKey "Key is incorrect"
      | some dec =>
        { raw_key := state.raw_key, hashed_key := state.hashed_key
          plaintext := (dec ++ List.replicate state.plaintext_size 0).take
            state.plaintext_size
          ciphertext := state.ciphertext, iv := state.iv
          ciphertext_size := state.ciphertext_size
          plaintext_size := state.plaintext_size
          algorithm := CryptoAlgorithm.kAES256CBC
          status := { err := some (StatusCode.kOk, "") } }

/-- `Decrypt` from `crypto.cc`. -/
def Decrypt (P : CryptoPrims) (le : Bool) (ciphertext raw_key : List Nat)
    (algorithm : CryptoAlgorithm) : CryptoState :=
  match algorithm with
  | CryptoAlgorithm.kAES256CBC =>
    DecryptAES256CBC P le ciphertext raw_key CryptoAlgorithm.kAES256CBC
  | CryptoAlgorithm.kDefaultNone => ValueInitCryptoState

/-- `IsKeyCorrect` from `crypto.cc`.  `ReadFileToString` is file I/O, embedded
as the optional file content: `none` models an unreadable file. -/
def IsKeyCorrect (P : CryptoPrims) (le : Bool) (key : List Nat)
    (file : Option (List Nat)) (algorithm : CryptoAlgorithm) : Bool :=
  match file with
  | none => false
  | some ciphertext => (Decrypt P le ciphertext key algorithm).status.ok

/-- PKCS#7 padding to a 16-byte block boundary. -/
def pkcs7pad (p : List Nat) : List Nat :=
  let v := 16 - p.length % 16
  p ++ List.replicate v v

/-- A concrete instance of the section-6.1 primitive contract (with no
cryptographic strength: padding only), showing the contract is satisfiable
and letting the codec theorems be evaluated on concrete inputs. -/
def padPrims : CryptoPrims where
  sha256hex := fun k => (k ++ List.replicate 64 48).take 64
  encCbc := fun _ _ p => pkcs7pad p
  decCbc := fun _ _ c =>
    match c.getLast? with
    | none => none
    | some v =>
      if v = 0 ∨ c.length < v then none else some (c.take (c.length - v))
  encCbc_length := by
    intro key iv p
    simp only [pkcs7pad, List.length_append, List.length_replicate]
    omega
  decCbc_encCbc := by
    intro key iv p
    have hv : 16 - p.length % 16 = (16 - p.length % 16 - 1) + 1 := by omega
    simp only [pkcs7pad]
    rw [hv, List.replicate_succ', ← List.append_assoc, List.getLast?_concat]
    dsimp only
    have hlen : ((p ++ List.replicate (16 - p.length % 16 - 1)
        (16 - p.length % 16 - 1 + 1)) ++ [16 - p.length % 16 - 1 + 1]).length
        = p.length + (16 - p.length % 16) := by
      simp only [List.length_append, List.length_replicate, List.length_cons,
        List.length_nil]
      omega
    rw [if_neg (by rw [hlen]; omega)]
    rw [hlen]
    have ht : p.length + (16 - p.length % 16) - (16 - p.length % 16 - 1 + 1)
        = p.length := by omega
    rw [ht, List.append_assoc, List.take_left' rfl]

/-- The `Row` struct from `editor.h`, restricted to the fields the row-store
claims are about: `idx` ("Row index in the file, zero-based") and the byte
content `chars` (its C `size` is `chars.length`).  `render`, `rsize`, `hl`
and `hl_oc` are per-row data recomputed by `UpdateRow` on the freshly
inserted row only, and no claim under proof mentions them. -/
structure Row where
  idx : Nat
  chars : List Nat
deriving DecidableEq, Repr

/-- The editor `State` from `editor.h`, restricted to the fields the claims
under proof touch: the row sequence (`row` and `numrows`, here
`rows.length`), the `dirty` counter, `quit_times`, and the status-message
buffer. -/
structure EState where
  rows : List Row
  dirty : Nat
  quit_times : Nat
  statusmsg : String
deriving DecidableEq, Repr

/-- `InsertRow` from `editor.cc`: reject `at > numrows`; otherwise shift the
rows from position `at` down by one, incrementing their `idx`, and place the
new row (with `idx = at` and the copied bytes) at position `at`.  The
`UpdateRow` call only fills the new row's derived render data. -/
def InsertRow (state : EState) (at_ : Nat) (s : List Nat) : EState :=
  if at_ > state.rows.length then state
  else
    { state with
      rows := state.rows.take at_ ++
        ({ idx := at_, chars := s } ::
          (state.rows.drop at_).map (fun r => { r with idx := r.idx + 1 }))
      dirty := state.dirty + 1 }

/-- `DeleteRow` from `editor.cc`: reject `at >= numrows`; otherwise remove the
row at `at`, shift the subsequent rows up by one, and run
`for (j = at; j < numrows - 1; j++) row[j].idx++`, which increments the `idx`
of every shifted row. -/
def DeleteRow (state : EState) (at_ : Nat) : EState :=
  if at_ ≥ state.rows.length then state
  else
    { state with
      rows := state.rows.take at_ ++
        (state.rows.drop (at_ + 1)).map (fun r => { r with idx := r.idx + 1 })
      dirty := state.dirty + 1 }

/-- `RowsToString` from `editor.cc`: one loop sums `size + 1` over the rows
into `buflen`; a second loop copies each row's bytes followed by a newline
byte into the buffer.  The result is the pair (buffer contents, `*buflen`);
the trailing NUL terminator is outside the reported length. -/
def RowsToString (state : EState) : List Nat × Nat :=
  let totlen := state.rows.foldl (fun acc r => acc + (r.chars.length + 1)) 0
  let buf := state.rows.foldl (fun acc r => acc ++ r.chars ++ [10]) []
  (buf, totlen)

/-- Result of one key dispatch in `ProcessKeyPressUnlocked`: either the
process exits (the `exit(0)` after the quit guard) or the editor continues
with an updated state. -/
inductive KeyResult
  | exited
  | continued (state : EState)
deriving DecidableEq, Repr

/-- The warning `SetStatusMessage` formats on a premature Ctrl-Q, with the
pre-decrement `quit_times` interpolated for the `%d`. -/
def QuitWarning (quit_times : Nat) : String :=
  "WARNING!!! File has unsaved changes. Press Ctrl-Q " ++
    toString quit_times ++ " more times to quit."

/-- The `CTRL_Q` arm of `ProcessKeyPressUnlocked` in `editor.cc`: with unsaved
changes and a positive countdown, post the warning (which interpolates the
current `quit_times`), decrement `quit_times`, and return; otherwise reset
the terminal and `exit(0)`. -/
def ProcessCtrlQ (state : EState) : KeyResult :=
  if state.dirty ≠ 0 ∧ state.quit_times > 0 then
    KeyResult.continued
      { state with
        statusmsg := QuitWarning state.quit_times
        quit_times := state.quit_times - 1 }
  else KeyResult.exited

/-- `n` consecutive Ctrl-Q presses with no other key in between. -/
def CtrlQPresses : Nat → EState → KeyResult
  | 0, state => KeyResult.continued state
  | n + 1, state =>
    match ProcessCtrlQ state with
    | KeyResult.exited => KeyResult.exited
    | KeyResult.continued state2 => CtrlQPresses n state2

/-- Does `pat` occur at the head of `hay`? (the inner comparison of a
substring scan). -/
def LeadMatch : List Nat → List Nat → Bool
  | [], _ => true
  | _ :: _, [] => false
  | p :: ps, h :: hs => p = h && LeadMatch ps hs

/-- Does `pat` occur anywhere in `hay`?  This is the containment test
performed by `filename.find(aes256cbc) != std::string::npos` in
`GetCryptoAlgorithmFromFilename` (`std::string::find` returns `npos` exactly
when no occurrence exists). -/
def ContainsSub (hay pat : List Nat) : Bool :=
  match hay with
  | [] => LeadMatch pat []
  | _ :: t => LeadMatch pat hay || ContainsSub t pat

/-- The bytes of the literal `".aes256cbc"`. -/
def aes256cbcSuffix : List Nat := [46, 97, 101, 115, 50, 53, 54, 99, 98, 99]

/-- `GetCryptoAlgorithmFromFilename` from `editor.cc`. -/
def GetCryptoAlgorithmFromFilename (filename : List Nat) : CryptoAlgorithm :=
  if ContainsSub filename aes256cbcSuffix then CryptoAlgorithm.kAES256CBC
  else CryptoAlgorithm.kDefaultNone

/-- Stated from the claim's words, for comparison with the source's
containment test: does `filename` end with `sfx`? -/
def EndsWith (filename sfx : List Nat) : Bool :=
  if sfx.length ≤ filename.length then
    filename.drop (filename.length - sfx.length) = sfx
  else false

/-- Which password flow `HandleEncryption` enters. -/
inductive PasswordFlow
  | noFlow
  | existingFile
  | newFile
deriving DecidableEq, Repr

/-- `HandleEncryption` from `editor.cc`: derive the algorithm from the
filename; on `kDefaultNone` return at once without touching the password
machinery; otherwise record the algorithm on the state and enter the
existing-file or new-file password flow according to `FileExists`.  The
result is (flow entered, algorithm recorded), with `kDefaultNone` standing
for the untouched field on the early return. -/
def HandleEncryption (filename : List Nat) (fileExists : Bool) :
    PasswordFlow × CryptoAlgorithm :=
  let algo := GetCryptoAlgorithmFromFilename filename
  if algo = CryptoAlgorithm.kDefaultNone then
    (PasswordFlow.noFlow, CryptoAlgorithm.kDefaultNone)
  else if fileExists then (PasswordFlow.existingFile, algo)
  else (PasswordFlow.newFile, algo)

/-! ## Helper lemmas -/

/-- Accumulated form of the `RowsToString` byte-copy loop. -/
theorem foldl_rows_buf (rows : List Row) (acc : List Nat) :
    rows.foldl (fun a r => a ++ r.chars ++ [10]) acc =
      acc ++ rows.flatMap (fun r => r.chars ++ [10]) := by
  induction rows generalizing acc with
  | nil => simp
  | cons r t ih => rw [List.foldl_cons, ih]; simp [List.append_assoc]

/-- Accumulated form of the `RowsToString` length loop. -/
theorem foldl_rows_len (rows : List Row) (acc : Nat) :
    rows.foldl (fun a r => a + (r.chars.length + 1)) acc =
      acc + (rows.map (fun r => r.chars.length + 1)).sum := by
  induction rows generalizing acc with
  | nil => simp
  | cons r t ih => simp [ih]; omega

/-- The size header is always 8 bytes. -/
theorem construct_length (le : Bool) (n : Nat) :
    (ConstructPlaintextSizeHeaderForCiphertext le n).length = 8 := by
  cases le <;> simp [ConstructPlaintextSizeHeaderForCiphertext]

/-- Zeroing the last IV byte of a 16-byte vector keeps 16 bytes. -/
theorem zeroLast_length (src : List Nat) (h : src.length = 16) :
    (ZeroLastIvByte src).length = 16 := by
  simp [ZeroLastIvByte, h]

/-- Zeroing the last IV byte is idempotent. -/
theorem zeroLast_zeroLast (src : List Nat) :
    ZeroLastIvByte (ZeroLastIvByte src) = ZeroLastIvByte src := by
  rw [ZeroLastIvByte, ZeroLastIvByte,
    List.take_of_length_le (by simp), List.set_set]

/-- On a 16-byte vector, zeroing the last IV byte replaces exactly the final
byte. -/
theorem zeroLast_eq_take_append (src : List Nat) (h : src.length = 16) :
    ZeroLastIvByte src = src.take 15 ++ [0] := by
  rw [ZeroLastIvByte, List.take_of_length_le (by omega),
    List.set_eq_take_cons_drop _ (by omega),
    List.drop_of_length_le (by omega)]

/-- Zeroing the last IV byte of `l ++ [b]` with `l` of 15 bytes yields
`l ++ [0]`. -/
theorem zeroLast_append_singleton (l : List Nat) (b : Nat)
    (h : l.length = 15) :
    ZeroLastIvByte (l ++ [b]) = l ++ [0] := by
  rw [ZeroLastIvByte, List.take_of_length_le (by simp [h]),
    List.set_append_right _ _ (by omega), h]
  rfl

/-- The plaintext-size decoder only reads the first 8 bytes. -/
theorem getSize_first8 (le : Bool) (sz8 X Y : List Nat)
    (h : sz8.length = 8) :
    GetPlaintextSizeFromCiphertext le (sz8 ++ X) =
      GetPlaintextSizeFromCiphertext le (sz8 ++ Y) := by
  have hx : ∀ i, i < 8 → (sz8 ++ X).getD i 0 = sz8.getD i 0 := by
    intro i hi
    exact List.getD_append _ _ _ _ (by omega)
  have hy : ∀ i, i < 8 → (sz8 ++ Y).getD i 0 = sz8.getD i 0 := by
    intro i hi
    exact List.getD_append _ _ _ _ (by omega)
  have hlx : ¬ (sz8 ++ X).length < 8 := by simp [h]
  have hly : ¬ (sz8 ++ Y).length < 8 := by simp [h]
  cases le <;>
    simp only [GetPlaintextSizeFromCiphertext, hlx, hly, if_false,
      Bool.false_eq_true, Bool.true_eq_false, eq_self_iff_true, if_true,
      ite_false, ite_true, hx 0 (by omega), hx 1 (by omega),
      hx 2 (by omega), hx 3 (by omega), hx 4 (by omega), hx 5 (by omega),
      hx 6 (by omega), hx 7 (by omega), hy 0 (by omega), hy 1 (by omega),
      hy 2 (by omega), hy 3 (by omega), hy 4 (by omega), hy 5 (by omega),
      hy 6 (by omega), hy 7 (by omega)]

/-- `SetupCryptoStateFromCiphertextAES256CBC` on a container decomposed into
8 fixed bytes, 8 size bytes, a 16-byte IV and the raw cipher bytes. -/
theorem setup_decomposed (P : CryptoPrims) (le : Bool)
    (pre8 sz8 iv16 rest k : List Nat) (algo : CryptoAlgorithm)
    (h8 : pre8.length = 8) (hsz : sz8.length = 8) (hiv : iv16.length = 16)
    (hk : k ≠ []) :
    SetupCryptoStateFromCiphertextAES256CBC P le
      (pre8 ++ (sz8 ++ (iv16 ++ rest))) k algo =
    { raw_key := k, hashed_key := HashRawKey P k, plaintext := []
      ciphertext := rest, iv := iv16, ciphertext_size := rest.length
      plaintext_size :=
        GetPlaintextSizeFromCiphertext le (sz8 ++ (iv16 ++ rest))
      algorithm := algo
      status := { err := some (StatusCode.kOk, "") } } := by
  rw [SetupCryptoStateFromCiphertextAES256CBC]
  rw [if_neg (by simp [kHeaderSize, h8, hsz, hiv]; omega)]
  rw [if_neg hk]
  have hc1 : (pre8 ++ (sz8 ++ (iv16 ++ rest))).drop 8 =
      sz8 ++ (iv16 ++ rest) := List.drop_left' h8
  have hc2 : (sz8 ++ (iv16 ++ rest)).drop 8 = iv16 ++ rest :=
    List.drop_left' hsz
  have hiv' : (iv16 ++ rest).take kHeaderIvSize = iv16 :=
    List.take_left' hiv
  have hc3 : (iv16 ++ rest).drop kHeaderIvSize = rest :=
    List.drop_left' hiv
  simp only [hc1, hc2, hiv', hc3]

/-- `Decrypt` with the AES-256-CBC tag is `DecryptAES256CBC`. -/
theorem decrypt_eq_decryptAES (P : CryptoPrims) (le : Bool)
    (c k : List Nat) :
    Decrypt P le c k CryptoAlgorithm.kAES256CBC =
      DecryptAES256CBC P le c k CryptoAlgorithm.kAES256CBC := rfl

/-- `DecryptAES256CBC` after a successful header parse: the zero-size early
return, or the cipher call on the stripped bytes with the last-IV-byte
replacement applied. -/
theorem decryptAES_post (P : CryptoPrims) (le : Bool)
    (c k rest iv16 : List Nat) (n : Nat)
    (hsetup : SetupCryptoStateFromCiphertextAES256CBC P le c k
        CryptoAlgorithm.kAES256CBC =
      { raw_key := k, hashed_key := HashRawKey P k, plaintext := []
        ciphertext := rest, iv := iv16, ciphertext_size := rest.length
        plaintext_size := n, algorithm := CryptoAlgorithm.kAES256CBC
        status := { err := some (StatusCode.kOk, "") } }) :
    DecryptAES256CBC P le c k CryptoAlgorithm.kAES256CBC =
      if n = 0 then
        { raw_key := k, hashed_key := HashRawKey P k, plaintext := []
          ciphertext := rest, iv := iv16, ciphertext_size := rest.length
          plaintext_size := n, algorithm := CryptoAlgorithm.kAES256CBC
          status := { err := some (StatusCode.kOk, "") } }
      else
        match P.decCbc (HashRawKey P k) (ZeroLastIvByte iv16) rest with
        | none => CreateCryptoStateWithStatus StatusCode.kInvalidKey
            "Key is incorrect"
        | some dec =>
          { raw_key := k, hashed_key := HashRawKey P k
            plaintext := (dec ++ List.replicate n 0).take n
            ciphertext := rest, iv := iv16, ciphertext_size := rest.length
            plaintext_size := n, algorithm := CryptoAlgorithm.kAES256CBC
            status := { err := some (StatusCode.kOk, "") } } := by
  rw [DecryptAES256CBC, hsetup]
  rw [if_neg (by simp [StatusV.ok])]

/-! ## Claims -/

/-- Claim C1: for every plaintext (of `uint64_t`-representable size), every
non-empty password and every 16-byte IV, decrypting the framed ciphertext
produced by `Encrypt` with the same password succeeds with status `kOk` and
returns exactly the original plaintext.  Proved for every cipher primitive
satisfying the section-6.1 contract and for either host endianness. -/
theorem claim1_decrypt_encrypt_roundtrip (P : CryptoPrims) (le : Bool)
    (p k iv : List Nat) (hk : k ≠ []) (hiv : iv.length = 16)
    (hp : p.length < 2 ^ 64) :
    (Decrypt P le (Encrypt P le p k iv CryptoAlgorithm.kAES256CBC).ciphertext
      k CryptoAlgorithm.kAES256CBC).status.ok = true ∧
    (Decrypt P le (Encrypt P le p k iv CryptoAlgorithm.kAES256CBC).ciphertext
      k CryptoAlgorithm.kAES256CBC).plaintext = p := by
  have hct : (Encrypt P le p k iv CryptoAlgorithm.kAES256CBC).ciphertext =
      (kHeaderMagicNumber ++ ([49] ++ [48, 48, 49])) ++
        (ConstructPlaintextSizeHeaderForCiphertext le p.length ++
          (ZeroLastIvByte iv ++
            P.encCbc (HashRawKey P k) (ZeroLastIvByte iv) p)) := by
    show (EncryptAES256CBC P le p k iv).ciphertext = _
    rw [EncryptAES256CBC, if_neg hk]
    simp [List.append_assoc]
  have hivlen : (ZeroLastIvByte iv).length = 16 := zeroLast_length iv hiv
  have hsetup := setup_decomposed P le
    (kHeaderMagicNumber ++ ([49] ++ [48, 48, 49]))
    (ConstructPlaintextSizeHeaderForCiphertext le p.length)
    (ZeroLastIvByte iv)
    (P.encCbc (HashRawKey P k) (ZeroLastIvByte iv) p) k
    CryptoAlgorithm.kAES256CBC (by simp [kHeaderMagicNumber])
    (construct_length le p.length) hivlen hk
  have hsize : GetPlaintextSizeFromCiphertext le
      (ConstructPlaintextSizeHeaderForCiphertext le p.length ++
        (ZeroLastIvByte iv ++
          P.encCbc (HashRawKey P k) (ZeroLastIvByte iv) p)) = p.length :=
    getSize_construct le p.length hp _
  show (DecryptAES256CBC P le _ k CryptoAlgorithm.kAES256CBC).status.ok
      = true ∧
    (DecryptAES256CBC P le _ k CryptoAlgorithm.kAES256CBC).plaintext = p
  rw [DecryptAES256CBC, hct, hsetup]
  simp only [StatusV.ok, StatusV.code?, hsize]
  rw [if_neg (by simp)]
  rw [zeroLast_zeroLast]
  by_cases hp0 : p.length = 0
  · rw [if_pos hp0]
    have : p = [] := List.eq_nil_of_length_eq_zero hp0
    simp [StatusV.ok, this]
  · rw [if_neg hp0]
    rw [P.decCbc_encCbc (HashRawKey P k) (ZeroLastIvByte iv) p]
    simp only [StatusV.ok]
    refine ⟨rfl, ?_⟩
    rw [List.take_left' rfl]

/-- Claim C1 witness: the two-byte plaintext `[104, 105]`, password `[116]`
and the zero IV round-trip under the padding instance of the primitive
contract. -/
theorem claim1_decrypt_encrypt_roundtrip_witness :
    ([116] : List Nat) ≠ [] ∧ (List.replicate 16 0 : List Nat).length = 16 ∧
    ([104, 105] : List Nat).length < 2 ^ 64 ∧
    ((Decrypt padPrims true
        (Encrypt padPrims true [104, 105] [116] (List.replicate 16 0)
          CryptoAlgorithm.kAES256CBC).ciphertext
        [116] CryptoAlgorithm.kAES256CBC).status.ok = true ∧
      (Decrypt padPrims true
        (Encrypt padPrims true [104, 105] [116] (List.replicate 16 0)
          CryptoAlgorithm.kAES256CBC).ciphertext
        [116] CryptoAlgorithm.kAES256CBC).plaintext = [104, 105]) :=
  ⟨by decide, by decide, by decide,
    claim1_decrypt_encrypt_roundtrip padPrims true [104, 105] [116]
      (List.replicate 16 0) (by decide) (by decide) (by decide)⟩

/-- Claim C2: for every input shorter than 32 bytes and every password,
including the empty one, AES-256-CBC decryption fails with
`kInvalidDataSize` (the length check in
`SetupCryptoStateFromCiphertextAES256CBC` precedes the key check, and
`DecryptAES256CBC` forwards that error state). -/
theorem claim2_short_ciphertext_invalid_data_size (P : CryptoPrims)
    (le : Bool) (c k : List Nat) (hc : c.length < 32) :
    (Decrypt P le c k CryptoAlgorithm.kAES256CBC).status =
      { err := some (StatusCode.kInvalidDataSize,
          "Ciphertext is too small to contain header") } := by
  have hsetup : SetupCryptoStateFromCiphertextAES256CBC P le c k
      CryptoAlgorithm.kAES256CBC =
      CreateCryptoStateWithStatus StatusCode.kInvalidDataSize
        "Ciphertext is too small to contain header" := by
    rw [SetupCryptoStateFromCiphertextAES256CBC, if_pos]
    exact hc
  rw [Decrypt, DecryptAES256CBC, hsetup]
  rfl

/-- Claim C2 witness: decrypting the 9-byte blob `"malformed"` with the empty
password yields `kInvalidDataSize`. -/
theorem claim2_short_ciphertext_invalid_data_size_witness :
    ([109, 97, 108, 102, 111, 114, 109, 101, 100] : List Nat).length < 32 ∧
    (Decrypt padPrims true [109, 97, 108, 102, 111, 114, 109, 101, 100] []
      CryptoAlgorithm.kAES256CBC).status =
      { err := some (StatusCode.kInvalidDataSize,
          "Ciphertext is too small to contain header") } :=
  ⟨by decide,
    claim2_short_ciphertext_invalid_data_size padPrims true
      [109, 97, 108, 102, 111, 114, 109, 101, 100] [] (by decide)⟩

/-- Claim C3: on a little-endian host the 8-byte size header is emitted
most-significant byte first (byte `i` is bits `63 - 8 i .. 56 - 8 i`, i.e.
`n / 2 ^ (56 - 8 i) % 256`), and the size decoder on the same host reads the
8 bytes back to exactly `n`. -/
theorem claim3_size_header_msb_first_roundtrip (n : Nat) (hn : n < 2 ^ 64) :
    ConstructPlaintextSizeHeaderForCiphertext true n =
      [n / 2 ^ 56 % 256, n / 2 ^ 48 % 256, n / 2 ^ 40 % 256,
       n / 2 ^ 32 % 256, n / 2 ^ 24 % 256, n / 2 ^ 16 % 256,
       n / 2 ^ 8 % 256, n % 256] ∧
    GetPlaintextSizeFromCiphertext true
      (ConstructPlaintextSizeHeaderForCiphertext true n) = n := by
  constructor
  · simp [ConstructPlaintextSizeHeaderForCiphertext, and_255_eq_mod,
      Nat.shiftRight_eq_div_pow]
  · have h := getSize_construct true n hn []
    simpa using h

/-- Claim C3 witness at `n = 259`. -/
theorem claim3_size_header_msb_first_roundtrip_witness :
    (259 : Nat) < 2 ^ 64 ∧
    (ConstructPlaintextSizeHeaderForCiphertext true 259 =
      [259 / 2 ^ 56 % 256, 259 / 2 ^ 48 % 256, 259 / 2 ^ 40 % 256,
       259 / 2 ^ 32 % 256, 259 / 2 ^ 24 % 256, 259 / 2 ^ 16 % 256,
       259 / 2 ^ 8 % 256, 259 % 256] ∧
    GetPlaintextSizeFromCiphertext true
      (ConstructPlaintextSizeHeaderForCiphertext true 259) = 259) :=
  ⟨by norm_num, claim3_size_header_msb_first_roundtrip 259 (by norm_num)⟩

/-- Claim C10: a framed input of at least 32 bytes whose size field decodes
to zero decrypts to `kOk` with empty plaintext for every non-empty password
(the zero-size early return in `DecryptAES256CBC` fires before any cipher
call — the result holds for every cipher primitive `P`), so `IsKeyCorrect`
accepts every non-empty password on such a file. -/
theorem claim10_zero_size_container_accepts_any_password (P : CryptoPrims)
    (le : Bool) (c k : List Nat) (hk : k ≠ []) (hc : 32 ≤ c.length)
    (h0 : GetPlaintextSizeFromCiphertext le (c.drop 8) = 0) :
    (Decrypt P le c k CryptoAlgorithm.kAES256CBC).status.ok = true ∧
    (Decrypt P le c k CryptoAlgorithm.kAES256CBC).plaintext = [] ∧
    IsKeyCorrect P le k (some c) CryptoAlgorithm.kAES256CBC = true := by
  have hsetup : SetupCryptoStateFromCiphertextAES256CBC P le c k
      CryptoAlgorithm.kAES256CBC =
      { raw_key := k, hashed_key := HashRawKey P k, plaintext := []
        ciphertext := (c.drop 8).drop 8 |>.drop kHeaderIvSize
        iv := (c.drop 8).drop 8 |>.take kHeaderIvSize
        ciphertext_size := ((c.drop 8).drop 8 |>.drop kHeaderIvSize).length
        plaintext_size := GetPlaintextSizeFromCiphertext le (c.drop 8)
        algorithm := CryptoAlgorithm.kAES256CBC
        status := { err := some (StatusCode.kOk, "") } } := by
    rw [SetupCryptoStateFromCiphertextAES256CBC,
      if_neg (by rw [kHeaderSize]; omega), if_neg hk]
  have hD : DecryptAES256CBC P le c k CryptoAlgorithm.kAES256CBC =
      { raw_key := k, hashed_key := HashRawKey P k, plaintext := []
        ciphertext := (c.drop 8).drop 8 |>.drop kHeaderIvSize
        iv := (c.drop 8).drop 8 |>.take kHeaderIvSize
        ciphertext_size := ((c.drop 8).drop 8 |>.drop kHeaderIvSize).length
        plaintext_size := GetPlaintextSizeFromCiphertext le (c.drop 8)
        algorithm := CryptoAlgorithm.kAES256CBC
        status := { err := some (StatusCode.kOk, "") } } := by
    rw [decryptAES_post P le c k _ _ _ hsetup, if_pos h0]
  refine ⟨?_, ?_, ?_⟩
  · rw [decrypt_eq_decryptAES, hD]
    rfl
  · rw [decrypt_eq_decryptAES, hD]
  · show (Decrypt P le c k CryptoAlgorithm.kAES256CBC).status.ok = true
    rw [decrypt_eq_decryptAES, hD]
    rfl

/-- Claim C10 witness: 32 zero bytes form a zero-size container accepted
with password `[116]`. -/
theorem claim10_zero_size_container_accepts_any_password_witness :
    ([116] : List Nat) ≠ [] ∧ 32 ≤ (List.replicate 32 0 : List Nat).length ∧
    GetPlaintextSizeFromCiphertext true
      ((List.replicate 32 0 : List Nat).drop 8) = 0 ∧
    ((Decrypt padPrims true (List.replicate 32 0) [116]
        CryptoAlgorithm.kAES256CBC).status.ok = true ∧
      (Decrypt padPrims true (List.replicate 32 0) [116]
        CryptoAlgorithm.kAES256CBC).plaintext = [] ∧
      IsKeyCorrect padPrims true [116] (some (List.replicate 32 0))
        CryptoAlgorithm.kAES256CBC = true) :=
  ⟨by decide, by decide, by decide,
    claim10_zero_size_container_accepts_any_password padPrims true
      (List.replicate 32 0) [116] (by decide) (by decide) (by decide)⟩

/-- Claim C9: the IV actually used by `EncryptAES256CBC` and written into
the container at offsets 16..31 is the supplied IV with its last byte
replaced by `0`, so byte 31 of every produced container is `0`, while the
`iv` field of the returned state still holds the unmodified input; and
decryption replaces the last header IV byte the same way, so the decrypt
status and plaintext do not depend on container byte 31 at all. -/
theorem claim9_last_iv_byte_zeroed (P : CryptoPrims) (le : Bool)
    (p k iv : List Nat) (hk : k ≠ []) (hiv : iv.length = 16) :
    (((Encrypt P le p k iv CryptoAlgorithm.kAES256CBC).ciphertext.drop
        16).take 16 = iv.take 15 ++ [0] ∧
      (Encrypt P le p k iv
        CryptoAlgorithm.kAES256CBC).ciphertext.getD 31 0 = 0 ∧
      (Encrypt P le p k iv CryptoAlgorithm.kAES256CBC).iv = iv) ∧
    (∀ pre8 sz8 iv15 rest k2 : List Nat, ∀ b1 b2 : Nat,
      pre8.length = 8 → sz8.length = 8 → iv15.length = 15 →
      (Decrypt P le (pre8 ++ (sz8 ++ ((iv15 ++ [b1]) ++ rest))) k2
          CryptoAlgorithm.kAES256CBC).status =
        (Decrypt P le (pre8 ++ (sz8 ++ ((iv15 ++ [b2]) ++ rest))) k2
          CryptoAlgorithm.kAES256CBC).status ∧
      (Decrypt P le (pre8 ++ (sz8 ++ ((iv15 ++ [b1]) ++ rest))) k2
          CryptoAlgorithm.kAES256CBC).plaintext =
        (Decrypt P le (pre8 ++ (sz8 ++ ((iv15 ++ [b2]) ++ rest))) k2
          CryptoAlgorithm.kAES256CBC).plaintext) := by
  have hct : (Encrypt P le p k iv CryptoAlgorithm.kAES256CBC).ciphertext =
      ((kHeaderMagicNumber ++ ([49] ++ [48, 48, 49])) ++
        ConstructPlaintextSizeHeaderForCiphertext le p.length) ++
        (ZeroLastIvByte iv ++
          P.encCbc (HashRawKey P k) (ZeroLastIvByte iv) p) := by
    show (EncryptAES256CBC P le p k iv).ciphertext = _
    rw [EncryptAES256CBC, if_neg hk]
    simp [List.append_assoc]
  have hpre16 : ((kHeaderMagicNumber ++ ([49] ++ [48, 48, 49])) ++
      ConstructPlaintextSizeHeaderForCiphertext le p.length).length = 16 := by
    simp [kHeaderMagicNumber, construct_length]
  have hivlen : (ZeroLastIvByte iv).length = 16 := zeroLast_length iv hiv
  have hzl : ZeroLastIvByte iv = iv.take 15 ++ [0] :=
    zeroLast_eq_take_append iv hiv
  constructor
  · refine ⟨?_, ?_, ?_⟩
    · rw [hct, List.drop_left' hpre16, List.take_left' hivlen, hzl]
    · rw [hct, List.getD_append_right _ _ _ _ (by omega),
        hpre16, List.getD_append _ _ _ _ (by omega), hzl,
        List.getD_append_right _ _ _ _ (by simp [hiv]),
        List.length_take, hiv]
      rfl
    · show (EncryptAES256CBC P le p k iv).iv = iv
      rw [EncryptAES256CBC, if_neg hk]
  · intro pre8 sz8 iv15 rest k2 b1 b2 h8 hsz h15
    by_cases hk2 : k2 = []
    · have hsetupE : ∀ b : Nat,
          SetupCryptoStateFromCiphertextAES256CBC P le
            (pre8 ++ (sz8 ++ ((iv15 ++ [b]) ++ rest))) k2
            CryptoAlgorithm.kAES256CBC =
          CreateCryptoStateWithStatus StatusCode.kInvalidKeySize
            "Key is empty" := by
        intro b
        rw [SetupCryptoStateFromCiphertextAES256CBC,
          if_neg (by simp [kHeaderSize, h8, hsz, h15]; omega), if_pos hk2]
      have e : ∀ b : Nat,
          Decrypt P le (pre8 ++ (sz8 ++ ((iv15 ++ [b]) ++ rest))) k2
            CryptoAlgorithm.kAES256CBC =
          CreateCryptoStateWithStatus StatusCode.kInvalidKeySize
            "Key is empty" := by
        intro b
        rw [decrypt_eq_decryptAES, DecryptAES256CBC, hsetupE b]
        rfl
      rw [e b1, e b2]
      exact ⟨rfl, rfl⟩
    · have hsetup : ∀ b : Nat,
          SetupCryptoStateFromCiphertextAES256CBC P le
            (pre8 ++ (sz8 ++ ((iv15 ++ [b]) ++ rest))) k2
            CryptoAlgorithm.kAES256CBC =
          { raw_key := k2, hashed_key := HashRawKey P k2, plaintext := []
            ciphertext := rest, iv := iv15 ++ [b]
            ciphertext_size := rest.length
            plaintext_size := GetPlaintextSizeFromCiphertext le
              (sz8 ++ ((iv15 ++ [b]) ++ rest))
            algorithm := CryptoAlgorithm.kAES256CBC
            status := { err := some (StatusCode.kOk, "") } } := by
        intro b
        exact setup_decomposed P le pre8 sz8 (iv15 ++ [b]) rest k2
          CryptoAlgorithm.kAES256CBC h8 hsz (by simp [h15]) hk2
      have hn : GetPlaintextSizeFromCiphertext le
          (sz8 ++ ((iv15 ++ [b1]) ++ rest)) =
          GetPlaintextSizeFromCiphertext le
            (sz8 ++ ((iv15 ++ [b2]) ++ rest)) :=
        getSize_first8 le sz8 _ _ hsz
      have hziv : ∀ b : Nat, ZeroLastIvByte (iv15 ++ [b]) = iv15 ++ [0] :=
        fun b => zeroLast_append_singleton iv15 b h15
      rw [decrypt_eq_decryptAES, decrypt_eq_decryptAES,
        decryptAES_post P le _ k2 _ _ _ (hsetup b1),
        decryptAES_post P le _ k2 _ _ _ (hsetup b2)]
      rw [hziv b1, hziv b2, hn]
      by_cases hz : GetPlaintextSizeFromCiphertext le
          (sz8 ++ ((iv15 ++ [b2]) ++ rest)) = 0
      · rw [if_pos hz, if_pos hz]
        exact ⟨rfl, rfl⟩
      · rw [if_neg hz, if_neg hz]
        cases hdec : P.decCbc (HashRawKey P k2) (iv15 ++ [0]) rest with
        | none => exact ⟨rfl, rfl⟩
        | some d => exact ⟨rfl, rfl⟩

/-- Claim C9 witness: concrete instantiation of both halves. -/
theorem claim9_last_iv_byte_zeroed_witness :
    ([116] : List Nat) ≠ [] ∧ (List.replicate 16 7 : List Nat).length = 16 ∧
    ((((Encrypt padPrims true [104] [116] (List.replicate 16 7)
        CryptoAlgorithm.kAES256CBC).ciphertext.drop 16).take 16 =
        (List.replicate 16 7 : List Nat).take 15 ++ [0] ∧
      (Encrypt padPrims true [104] [116] (List.replicate 16 7)
        CryptoAlgorithm.kAES256CBC).ciphertext.getD 31 0 = 0 ∧
      (Encrypt padPrims true [104] [116] (List.replicate 16 7)
        CryptoAlgorithm.kAES256CBC).iv = List.replicate 16 7) ∧
    (∀ pre8 sz8 iv15 rest k2 : List Nat, ∀ b1 b2 : Nat,
      pre8.length = 8 → sz8.length = 8 → iv15.length = 15 →
      (Decrypt padPrims true (pre8 ++ (sz8 ++ ((iv15 ++ [b1]) ++ rest))) k2
          CryptoAlgorithm.kAES256CBC).status =
        (Decrypt padPrims true (pre8 ++ (sz8 ++ ((iv15 ++ [b2]) ++ rest)))
          k2 CryptoAlgorithm.kAES256CBC).status ∧
      (Decrypt padPrims true (pre8 ++ (sz8 ++ ((iv15 ++ [b1]) ++ rest))) k2
          CryptoAlgorithm.kAES256CBC).plaintext =
        (Decrypt padPrims true (pre8 ++ (sz8 ++ ((iv15 ++ [b2]) ++ rest)))
          k2 CryptoAlgorithm.kAES256CBC).plaintext)) :=
  ⟨by decide, by decide,
    claim9_last_iv_byte_zeroed padPrims true [104] [116]
      (List.replicate 16 7) (by decide) (by decide)⟩

/-- A three-row editor state whose rows carry their positions in `idx`, as
`InsertRow` establishes. -/
def threeRowState : EState :=
  { rows := [{ idx := 0, chars := [97] }, { idx := 1, chars := [98] },
      { idx := 2, chars := [99] }]
    dirty := 0, quit_times := 3, statusmsg := "" }

/-- Claim C5 (code bug witness): deleting row 0 of a three-row state keeps
the right byte contents in the right order, but the `idx++` loop in
`DeleteRow` leaves the shifted rows with `idx = [2, 3]` where positions (and
the claim) require `[0, 1]`: afterwards no row satisfies
`idx = position`. -/
theorem claim5_delete_row_idx_incremented :
    (DeleteRow threeRowState 0).rows.map Row.chars = [[98], [99]] ∧
    (DeleteRow threeRowState 0).rows.map Row.idx = [2, 3] ∧
    (DeleteRow threeRowState 0).rows.map Row.idx ≠ [0, 1] := by
  refine ⟨?_, ?_, ?_⟩ <;> decide

/-- A two-row editor state whose rows carry their positions in `idx`. -/
def twoRowState : EState :=
  { rows := [{ idx := 0, chars := [97] }, { idx := 1, chars := [98] }]
    dirty := 0, quit_times := 3, statusmsg := "" }

/-- Claim C6 (code bug witness): `InsertRow(0, ...)` followed by
`DeleteRow(0)` restores the byte contents but not the row sequence: the
original rows come back with `idx = [2, 3]` instead of `[0, 1]` (incremented
once by `InsertRow`'s shift and once more by the buggy `idx++` loop in
`DeleteRow`), so the sequence differs from the original. -/
theorem claim6_insert_then_delete_changes_idx :
    (DeleteRow (InsertRow twoRowState 0 [120]) 0).rows.map Row.chars =
      twoRowState.rows.map Row.chars ∧
    (DeleteRow (InsertRow twoRowState 0 [120]) 0).rows.map Row.idx =
      [2, 3] ∧
    (DeleteRow (InsertRow twoRowState 0 [120]) 0).rows ≠
      twoRowState.rows := by
  refine ⟨?_, ?_, ?_⟩ <;> decide

/-- Claim C7: `RowsToString` returns the concatenation of every row's bytes
each followed by a newline (including after the last row), and reports in
`buflen` the sum over the rows of `size + 1`. -/
theorem claim7_rows_to_string_newline_after_every_row (state : EState) :
    (RowsToString state).1 =
      state.rows.flatMap (fun r => r.chars ++ [10]) ∧
    (RowsToString state).2 =
      (state.rows.map (fun r => r.chars.length + 1)).sum := by
  constructor
  · rw [RowsToString]
    simpa using foldl_rows_buf state.rows []
  · rw [RowsToString]
    simpa using foldl_rows_len state.rows 0

/-- Claim C8: with unsaved changes, a Ctrl-Q press while `quit_times > 0`
does not exit: it posts the warning carrying the current countdown and
decrements `quit_times`.  From a fresh state (`quit_times = 3`) with no
intervening save, presses 1 to 3 all leave the editor running with
`quit_times = 3 - k`, and only the 4th consecutive press exits. -/
theorem claim8_dirty_quit_requires_four_presses (st : EState)
    (hd : st.dirty > 0) (hq : st.quit_times = 3) :
    (∀ s : EState, s.dirty > 0 → s.quit_times > 0 →
      ProcessCtrlQ s = KeyResult.continued
        { s with statusmsg := QuitWarning s.quit_times
                 quit_times := s.quit_times - 1 }) ∧
    (∀ k, k ≤ 3 → ∃ s : EState, CtrlQPresses k st = KeyResult.continued s ∧
      s.quit_times = 3 - k ∧ s.dirty = st.dirty) ∧
    CtrlQPresses 4 st = KeyResult.exited := by
  have hstep : ∀ s : EState, s.dirty > 0 → s.quit_times > 0 →
      ProcessCtrlQ s = KeyResult.continued
        { s with statusmsg := QuitWarning s.quit_times
                 quit_times := s.quit_times - 1 } := by
    intro s h1 h2
    rw [ProcessCtrlQ, if_pos ⟨by omega, h2⟩]
  have hlast : ∀ s : EState, s.quit_times = 0 →
      ProcessCtrlQ s = KeyResult.exited := by
    intro s h0
    rw [ProcessCtrlQ, if_neg]
    omega
  have h1 := hstep st hd (by omega)
  set s1 : EState :=
    { st with statusmsg := QuitWarning st.quit_times
              quit_times := st.quit_times - 1 } with hs1
  have h2 := hstep s1 (by simpa [hs1] using hd) (by simp [hs1, hq])
  set s2 : EState :=
    { s1 with statusmsg := QuitWarning s1.quit_times
              quit_times := s1.quit_times - 1 } with hs2
  have h3 := hstep s2 (by simpa [hs2, hs1] using hd) (by simp [hs2, hs1, hq])
  set s3 : EState :=
    { s2 with statusmsg := QuitWarning s2.quit_times
              quit_times := s2.quit_times - 1 } with hs3
  have h4 := hlast s3 (by simp [hs3, hs2, hs1, hq])
  refine ⟨hstep, ?_, ?_⟩
  · intro k hk
    interval_cases k
    · exact ⟨st, by simp [CtrlQPresses], by omega, rfl⟩
    · refine ⟨s1, ?_, by simp [hs1, hq], by simp [hs1]⟩
      simp [CtrlQPresses, h1]
    · refine ⟨s2, ?_, by simp [hs2, hs1, hq], by simp [hs2, hs1]⟩
      simp [CtrlQPresses, h1, h2]
    · refine ⟨s3, ?_, by simp [hs3, hs2, hs1, hq], by simp [hs3, hs2, hs1]⟩
      simp [CtrlQPresses, h1, h2, h3]
  · simp [CtrlQPresses, h1, h2, h3, h4]

/-- Claim C8 witness: a dirty fresh state. -/
theorem claim8_dirty_quit_requires_four_presses_witness :
    let st : EState := { rows := [], dirty := 1, quit_times := 3
                         statusmsg := "" }
    st.dirty > 0 ∧ st.quit_times = 3 ∧
    ((∀ s : EState, s.dirty > 0 → s.quit_times > 0 →
      ProcessCtrlQ s = KeyResult.continued
        { s with statusmsg := QuitWarning s.quit_times
                 quit_times := s.quit_times - 1 }) ∧
    (∀ k, k ≤ 3 → ∃ s : EState, CtrlQPresses k st = KeyResult.continued s ∧
      s.quit_times = 3 - k ∧ s.dirty = st.dirty) ∧
    CtrlQPresses 4 st = KeyResult.exited) :=
  ⟨by decide, by decide,
    claim8_dirty_quit_requires_four_presses
      { rows := [], dirty := 1, quit_times := 3, statusmsg := "" }
      (by decide) (by decide)⟩

/-- `LeadMatch` holds exactly when the pattern is an initial segment. -/
theorem leadMatch_iff (pat hay : List Nat) :
    LeadMatch pat hay = true ↔ ∃ t, hay = pat ++ t := by
  induction pat generalizing hay with
  | nil =>
    simp [LeadMatch]
  | cons p ps ih =>
    cases hay with
    | nil => simp [LeadMatch]
    | cons h hs =>
      simp only [LeadMatch, Bool.and_eq_true, decide_eq_true_eq, ih,
        List.cons_append, List.cons.injEq]
      constructor
      · rintro ⟨hp, t, ht⟩
        exact ⟨t, hp.symm, ht⟩
      · rintro ⟨t, hp, ht⟩
        exact ⟨hp.symm, t, ht⟩

/-- `ContainsSub` (the `std::string::find != npos` test) holds exactly when
the pattern occurs as a contiguous substring. -/
theorem containsSub_iff (hay pat : List Nat) :
    ContainsSub hay pat = true ↔ ∃ pre post, hay = pre ++ pat ++ post := by
  induction hay with
  | nil =>
    rw [ContainsSub, leadMatch_iff]
    constructor
    · rintro ⟨t, ht⟩
      exact ⟨[], t, by simpa using ht⟩
    · rintro ⟨pre, post, h⟩
      cases pre with
      | nil => exact ⟨post, by simpa using h⟩
      | cons a as => simp at h
  | cons h t ih =>
    rw [ContainsSub, Bool.or_eq_true, leadMatch_iff, ih]
    constructor
    · rintro (⟨s, hs⟩ | ⟨pre, post, hp⟩)
      · exact ⟨[], s, by simpa using hs⟩
      · exact ⟨h :: pre, post, by simp [hp]⟩
    · rintro ⟨pre, post, hp⟩
      cases pre with
      | nil => exact Or.inl ⟨post, by simpa using hp⟩
      | cons a as =>
        simp only [List.cons_append, List.cons.injEq] at hp
        exact Or.inr ⟨as, post, hp.2⟩

/-- Claim C4 counterexample: the filename `"a.aes256cbc.txt"` does not end
with `".aes256cbc"`, yet `GetCryptoAlgorithmFromFilename` selects
AES-256-CBC for it, because the source tests `std::string::find` containment
rather than a suffix. -/
theorem claim4_suffix_rule_counterexample :
    GetCryptoAlgorithmFromFilename
        [97, 46, 97, 101, 115, 50, 53, 54, 99, 98, 99, 46, 116, 120, 116] =
      CryptoAlgorithm.kAES256CBC ∧
    EndsWith [97, 46, 97, 101, 115, 50, 53, 54, 99, 98, 99, 46, 116, 120, 116]
      aes256cbcSuffix = false := by
  refine ⟨?_, ?_⟩ <;> decide

/-- Claim C4 as amended: AES-256-CBC is selected exactly when the filename
contains `".aes256cbc"` as a contiguous substring (not only as a suffix);
for every filename without that substring no encryption is selected and
`HandleEncryption` returns without entering any password flow. -/
theorem claim4_substring_selects_aes (fn : List Nat) (fileExists : Bool) :
    (GetCryptoAlgorithmFromFilename fn = CryptoAlgorithm.kAES256CBC ↔
      ∃ pre post, fn = pre ++ aes256cbcSuffix ++ post) ∧
    ((¬ ∃ pre post, fn = pre ++ aes256cbcSuffix ++ post) →
      GetCryptoAlgorithmFromFilename fn = CryptoAlgorithm.kDefaultNone ∧
      HandleEncryption fn fileExists =
        (PasswordFlow.noFlow, CryptoAlgorithm.kDefaultNone)) := by
  cases hc : ContainsSub fn aes256cbcSuffix with
  | true =>
    have hex := (containsSub_iff fn aes256cbcSuffix).mp hc
    constructor
    · rw [GetCryptoAlgorithmFromFilename, if_pos hc]
      exact ⟨fun _ => hex, fun _ => rfl⟩
    · intro hno
      exact absurd hex hno
  | false =>
    have hnex : ¬ ∃ pre post, fn = pre ++ aes256cbcSuffix ++ post := by
      intro hex
      have := (containsSub_iff fn aes256cbcSuffix).mpr hex
      rw [hc] at this
      exact Bool.false_ne_true this
    constructor
    · rw [GetCryptoAlgorithmFromFilename, if_neg (by simp [hc])]
      exact ⟨fun h => absurd h (by decide), fun hex => absurd hex hnex⟩
    · intro _
      refine ⟨by rw [GetCryptoAlgorithmFromFilename, if_neg (by simp [hc])],
        ?_⟩
      rw [HandleEncryption]
      simp [GetCryptoAlgorithmFromFilename, hc]

/-- Claim C4 amended-theorem witness at the filename `"notes.txt"`. -/
theorem claim4_substring_selects_aes_witness :
    (GetCryptoAlgorithmFromFilename
        [110, 111, 116, 101, 115, 46, 116, 120, 116] =
          CryptoAlgorithm.kAES256CBC ↔
      ∃ pre post, [110, 111, 116, 101, 115, 46, 116, 120, 116] =
        pre ++ aes256cbcSuffix ++ post) ∧
    ((¬ ∃ pre post, [110, 111, 116, 101, 115, 46, 116, 120, 116] =
        pre ++ aes256cbcSuffix ++ post) →
      GetCryptoAlgorithmFromFilename
        [110, 111, 116, 101, 115, 46, 116, 120, 116] =
          CryptoAlgorithm.kDefaultNone ∧
      HandleEncryption [110, 111, 116, 101, 115, 46, 116, 120, 116] true =
        (PasswordFlow.noFlow, CryptoAlgorithm.kDefaultNone)) :=
  claim4_substring_selects_aes
    [110, 111, 116, 101, 115, 46, 116, 120, 116] true

end Ette
